import Mathlib

/-!
# Verification development for `auto_task_scheduler.c`

The scheduler is one C function, `check_and_prioritize_tasks`, built from two
nested `while` loops over a BPF map of `struct task_info` records.  The
embedding below follows the block structure fixed by the braces of the source
(not by its indentation):

```
while (1) {                                   -- line 63
  indicator = 0; current_time = time * 1e9;
  while (get_next_key (key, &next_key) == 0) { -- line 69
    if (lookup (next_key, &task) == 0) {       -- line 70
      if (kill (task.pid, 0) != 0) continue;
      ... per-record pipeline ...              -- lines 77-117
    }
    if (!indicator) {                          -- line 119
      ... resume classes 1..5 ...
      key = next_key;                          -- line 135
    }
    sleep (CHECK_INTERVAL);                    -- line 139
  }
  close (map_fd);                              -- line 142
}
```

Machine integers are natural numbers reduced modulo the width of their C type.
The operating system and the BPF map are the environment: the map is an
association list in iteration order, liveness is a predicate on pids, and the
observable effects of the program are collected in a trace of actions.
-/

namespace AutoTaskScheduler

/-! ## Data model -/

/-- Record of the task map, `struct task_info` (lines 14-21).  The integer
fields hold the unsigned value stored in the C field. -/
structure task_info where
  pid : Nat
  time_sensitive : Bool
  max_latency : Nat
  start_time : Nat
  end_time : Nat
  priority_class : Nat
deriving DecidableEq, Repr

/-- Interval of the tick sleep in seconds, `#define CHECK_INTERVAL 5`. -/
def CHECK_INTERVAL : Nat := 5

/-- Observable effects of the scheduler on the operating system. -/
inductive Action where
  /-- Effect `kill(pid, SIGSTOP)` of `pause_lower_priority_task`. -/
  | pause (pid : Nat)
  /-- Effect `kill(pid, SIGCONT)` of `resume_lower_priority_task`. -/
  | resume (pid : Nat)
  /-- Effect of `throttle_lower_priority_tasks(pid)`: a `nanosleep` of `secs` seconds. -/
  | throttle (pid : Nat) (secs : Nat)
  /-- Effect `setpriority(PRIO_PROCESS, pid, prio)`. -/
  | setpriority (pid : Nat) (prio : Int)
  /-- Effect `sleep(secs)`. -/
  | sleep (secs : Nat)
  /-- Effect `close(map_fd)`. -/
  | close
deriving DecidableEq, Repr

/-- The task map: its entries `(key, value)` in the iteration order of the map. -/
abbrev Registry := List (Nat × task_info)

/-- Keys of the map in iteration order. -/
def keys (reg : Registry) : List Nat := reg.map Prod.fst

/-- A well-formed map: every key occurs once, and no entry is stored under the
key `0`, the value every cursor of the program starts from. -/
def WellFormed (reg : Registry) : Prop := (keys reg).Nodup ∧ 0 ∉ keys reg

instance (reg : Registry) : Decidable (WellFormed reg) := by
  unfold WellFormed; infer_instance

/-! ## Environment primitives -/

/-- Position of `key` in the map: `none` when the key is absent, otherwise the
key stored right after it (`some none` when `key` is the last one). -/
def keyAfter (key : Nat) : Registry → Option (Option Nat)
  | [] => none
  | (k, _) :: rest =>
    if k = key then some (rest.head?.map Prod.fst) else keyAfter key rest

/-- BPF helper `bpf_map_get_next_key` on an open map: the key following `key`,
the first key of the map when `key` is not present, and `none` (a nonzero return
value) when there is no further key. -/
def bpf_map_get_next_key (reg : Registry) (key : Nat) : Option Nat :=
  match keyAfter key reg with
  | some r => r
  | none => reg.head?.map Prod.fst

/-- BPF helper `bpf_map_lookup_elem`: the value stored under `key`. -/
def bpf_map_lookup_elem : Registry → Nat → Option task_info
  | [], _ => none
  | (k, t) :: rest, key => if k = key then some t else bpf_map_lookup_elem rest key

/-! ## Machine arithmetic -/

/-- Conversion of an unsigned 64-bit value to `int` (two's complement, 32 bits). -/
def toInt32 (v : Nat) : Int :=
  if v % 2 ^ 32 < 2 ^ 31 then ((v % 2 ^ 32 : Nat) : Int) else ((v % 2 ^ 32 : Nat) : Int) - 2 ^ 32

/-- Conversion of an `int` to `uint64_t`, as done by `priority_class == i`. -/
def toU64 (i : Int) : Nat := (i % 2 ^ 64).toNat

/-- Unsigned 64-bit subtraction `current_time - start_time` (line 77). -/
def latencyOf (current_time start_time : Nat) : Nat :=
  (current_time % 2 ^ 64 + 2 ^ 64 - start_time % 2 ^ 64) % 2 ^ 64

/-- Number of low-order bits a value loses when it is stored in a 53-bit
significand. -/
def droppedBits : Nat → Nat → Nat
  | 0, _ => 0
  | fuel + 1, q => if q < 2 ^ 53 then 0 else droppedBits fuel (q / 2) + 1

/-- Rounding of a natural number to the nearest number with a 53-bit
significand, ties to the even significand (IEEE 754 binary64, default mode). -/
def roundNearestEven (q : Nat) : Nat :=
  let e := droppedBits 128 q
  let m := q / 2 ^ e
  let r := q % 2 ^ e
  if 2 ^ e < 2 * r ∨ (2 * r = 2 ^ e ∧ m % 2 = 1) then (m + 1) * 2 ^ e else m * 2 ^ e

/-- Conversion `(double) n` of an unsigned 64-bit value. -/
def u64_to_double (n : Nat) : Nat := roundNearestEven n

/-- Test `latency >= (max_latency * 0.75)` of line 110, evaluated in binary64.
Both operands are converted to `double`.  With `M = (double) max_latency`, an
integer, the exact product is `3 * M / 4`; rounding it to binary64 rounds the
significand of `3 * M` (a division by a power of two does not change the
rounding).  The comparison is made after multiplying both sides by 4. -/
def approaching (latency max_latency : Nat) : Bool :=
  decide (roundNearestEven (3 * u64_to_double max_latency) ≤ 4 * u64_to_double latency)

/-- Test `latency >= (max_latency * 0.5)` of line 113, evaluated in binary64;
halving a `double` is exact.  The comparison is made after multiplying both
sides by 2. -/
def halfway (latency max_latency : Nat) : Bool :=
  decide (u64_to_double max_latency ≤ 2 * u64_to_double latency)

/-! ## The program -/

/-- Inner loop of lines 90-99 and 125-132: a walk over the map from the cursor
`lower_key`, acting on every live entry whose class equals `i`.  The first
argument bounds the number of evaluations of the loop condition. -/
def scanClass (reg : Registry) (alive : Nat → Bool) (act : Nat → Action) (i : Int) :
    Nat → Nat → List Action
  | 0, _ => []
  | fuel + 1, lower_key =>
    match bpf_map_get_next_key reg lower_key with
    | none => []
    | some lower_next_key =>
      (match bpf_map_lookup_elem reg lower_next_key with
        | some lower_task =>
          if lower_task.priority_class = toU64 i ∧ alive lower_task.pid = true then
            [act lower_task.pid]
          else []
        | none => [])
      ++ scanClass reg alive act i fuel lower_next_key

/-- Values taken by the counter of `for (int i = start; i <= 5; i++)`. -/
def classesFrom (start : Int) : List Int :=
  (List.range (6 - start).toNat).map (fun (k : Nat) => start + (k : Int))

/-- Loop `for (int i = ...; i <= 5; i++)` around a walk over the whole map
(lines 86-100 and 121-133); a map of `n` entries has at most `n` keys, so every
walk evaluates its condition at most `n + 1` times. -/
def forClasses (reg : Registry) (alive : Nat → Bool) (act : Nat → Action) (start : Int) :
    List Action :=
  (classesFrom start).flatMap (fun i => scanClass reg alive act i (reg.length + 1) 0)

/-- Lines 86-100: throttle, 5 seconds each, the live tasks of the classes
`priority_class + 1 .. 5`. -/
def throttleLower (reg : Registry) (alive : Nat → Bool) (priority_class : Nat) : List Action :=
  forClasses reg alive (fun p => Action.throttle p 5) (toInt32 ((priority_class + 1) % 2 ^ 64))

/-- Lines 121-133: resume the live tasks of the classes `1 .. 5`. -/
def resumeAll (reg : Registry) (alive : Nat → Bool) : List Action :=
  forClasses reg alive Action.resume 1

/-- Per-record pipeline, lines 77-117, for a task that passed the liveness
probe: the new value of `indicator` and the actions issued. -/
def evaluate (reg : Registry) (alive : Nat → Bool) (current_time : Nat) (task : task_info)
    (indicator : Bool) : Bool × List Action :=
  let latency := latencyOf current_time task.start_time
  if task.time_sensitive = true ∧ task.max_latency < latency then
    (true, throttleLower reg alive task.priority_class ++ [Action.setpriority task.pid (-20)])
  else if task.time_sensitive = true then
    if approaching latency task.max_latency = true then
      (indicator, [Action.setpriority task.pid (-10)])
    else if halfway latency task.max_latency = true then
      (indicator, [Action.setpriority task.pid 0])
    else (indicator, [])
  else (indicator, [])

/-- The environment of one run: the map, the liveness of every pid, and the
value returned by `time(NULL)` at the start of each iteration of `while (1)`. -/
structure Env where
  reg : Registry
  alive : Nat → Bool
  time : Nat → Nat

/-- Program state at the test of the inner `while` (line 69).  Every action of
the trace carries the index of the `while (1)` iteration that issued it. -/
structure State where
  key : Nat
  indicator : Bool
  current_time : Nat
  map_open : Bool
  cycle : Nat
  trace : List (Nat × Action)
deriving DecidableEq, Repr

/-- Value of `(uint64_t)time(NULL) * 1000000000ULL` (line 66). -/
def timeNs (t : Nat) : Nat := (t % 2 ^ 64 * 1000000000) % 2 ^ 64

/-- State after a successful `bpf_obj_get`, at the first test of line 69. -/
def init (env : Env) : State :=
  { key := 0, indicator := false, current_time := timeNs (env.time 0),
    map_open := true, cycle := 0, trace := [] }

/-- Lines 119-139, the end of one iteration of the inner loop: global resume
and cursor advance when `indicator` is clear, then the tick sleep. -/
def finishIteration (env : Env) (st : State) (next_key : Nat) (indicator : Bool)
    (acts : List Action) : State :=
  let acts2 := if indicator = false then acts ++ resumeAll env.reg env.alive else acts
  { st with
    key := if indicator = false then next_key else st.key
    indicator := indicator
    trace := st.trace ++ (acts2 ++ [Action.sleep CHECK_INTERVAL]).map (fun a => (st.cycle, a)) }

/-- One evaluation of the condition of the inner `while` (line 69) followed
either by one iteration of its body or, when the condition fails, by
`close(map_fd)` and the head of the next `while (1)` iteration. -/
def step (env : Env) (st : State) : State :=
  match (if st.map_open = true then bpf_map_get_next_key env.reg st.key else none) with
  | some next_key =>
    match bpf_map_lookup_elem env.reg next_key with
    | some task =>
      if env.alive task.pid = false then st
      else
        let r := evaluate env.reg env.alive st.current_time task st.indicator
        finishIteration env st next_key r.1 r.2
    | none => finishIteration env st next_key st.indicator []
  | none =>
    { st with
      map_open := false
      indicator := false
      current_time := timeNs (env.time (st.cycle + 1))
      cycle := st.cycle + 1
      trace := st.trace ++ [(st.cycle, Action.close)] }

/-- State after `n` evaluations of the condition of the inner loop. -/
def run (env : Env) : Nat → State
  | 0 => init env
  | n + 1 => step env (run env n)

/-! ## Auxiliary definitions for the statements -/

/-- Actions of one walk for class `c` over the entries `l`: one action per live
entry of that class, in the order of `l`. -/
def matched (alive : Nat → Bool) (act : Nat → Action) (c : Nat) (l : Registry) : List Action :=
  (l.filter (fun e => decide (e.2.priority_class = c) && alive e.2.pid)).map (fun e => act e.2.pid)

/-- Trace made of `n` copies of a block of actions. -/
def repeated (block : List (Nat × Action)) : Nat → List (Nat × Action)
  | 0 => []
  | n + 1 => repeated block n ++ block

/-- Trace made of one `close` per cycle, for the cycles `first, ..., first + n - 1`. -/
def closes (first : Nat) : Nat → List (Nat × Action)
  | 0 => []
  | n + 1 => closes first n ++ [(first + n, Action.close)]

/-! ## Scenarios -/

/-- Scenario record A of the specification: class 1, deadline 1 s, 2 s elapsed
at the time 1700000000 s. -/
def recA : task_info :=
  { pid := 100, time_sensitive := true, max_latency := 1000000000,
    start_time := 1700000000000000000 - 2000000000, end_time := 0, priority_class := 1 }

/-- Scenario record B of the specification: class 2, not latency-sensitive. -/
def recB : task_info :=
  { pid := 101, time_sensitive := false, max_latency := 0, start_time := 0, end_time := 0,
    priority_class := 2 }

/-- Scenario record C of the specification: class 3, deadline 1 s, 600 ms
elapsed at the time 1700000000 s. -/
def recC : task_info :=
  { pid := 102, time_sensitive := true, max_latency := 1000000000,
    start_time := 1700000000000000000 - 600000000, end_time := 0, priority_class := 3 }

/-- Record at 90% of its deadline of 1 s at the time 1700000000 s. -/
def recNinety : task_info :=
  { pid := 7, time_sensitive := true, max_latency := 1000000000,
    start_time := 1700000000000000000 - 900000000, end_time := 0, priority_class := 3 }

/-- Record whose deadline `2 ^ 56 + 25` is rounded up by the conversion to
`double`; its latency at the time 1700000000 s is `3 * 2 ^ 54 + 19`. -/
def roundedUpTask : task_info :=
  { pid := 7, time_sensitive := true, max_latency := 2 ^ 56 + 25,
    start_time := 1700000000000000000 - (3 * 2 ^ 54 + 19), end_time := 0, priority_class := 3 }

/-- Record whose deadline `2 ^ 54 + 1` is rounded down by the conversion to
`double`; its latency at the time 1700000000 s is `3 * 2 ^ 52`. -/
def roundedDownTask : task_info :=
  { pid := 7, time_sensitive := true, max_latency := 2 ^ 54 + 1,
    start_time := 1700000000000000000 - 3 * 2 ^ 52, end_time := 0, priority_class := 3 }

/-- Clock of the scenarios: `time(NULL)` is 1700000000 in the first cycle and
five seconds later in each further cycle. -/
def scenarioTime (c : Nat) : Nat := 1700000000 + 5 * c

/-- Map holding B before the overtime record A, every task alive. -/
def lateOvertimeEnv : Env :=
  { reg := [(1, recB), (2, recA)], alive := fun _ => true, time := scenarioTime }

/-- Map holding the overtime record A alone, alive. -/
def overtimeEnv : Env :=
  { reg := [(1, recA)], alive := fun _ => true, time := scenarioTime }

/-- Map holding B, then C, then A, where the task of C is dead. -/
def deadMiddleEnv : Env :=
  { reg := [(1, recB), (2, recC), (3, recA)], alive := fun p => p != 102, time := scenarioTime }

/-- Map holding C before B, where the task of C is dead. -/
def deadFirstEnv : Env :=
  { reg := [(1, recC), (2, recB)], alive := fun p => p != 102, time := scenarioTime }

/-- Map holding the record C alone, alive. -/
def singleEnv : Env :=
  { reg := [(1, recC)], alive := fun _ => true, time := scenarioTime }

/-- Map holding B and C, every task alive, no record overtime. -/
def pairEnv : Env :=
  { reg := [(1, recB), (2, recC)], alive := fun _ => true, time := scenarioTime }

/-- The empty map. -/
def emptyEnv : Env :=
  { reg := [], alive := fun _ => true, time := scenarioTime }

/-! ## Startup, system calls and the map as state -/

/-- State after `n` further evaluations of the condition of the inner loop,
started from the state `st`. -/
def runFrom (env : Env) (st : State) : Nat → State
  | 0 => st
  | n + 1 => step env (runFrom env st n)

/-- What an observer sees of the process: it has left through `exit(code)`
after the actions of `trace`, or it is still running in the state `st`. -/
inductive Outcome where
  | exited (code : Nat) (trace : List (Nat × Action))
  | running (st : State)
deriving DecidableEq, Repr

/-- The function `check_and_prioritize_tasks` (lines 40-144), observed after
`n` evaluations of the condition of the inner loop.  `map_fd` is the value
returned by `bpf_obj_get(TASK_MAP_PATH)`: a negative value leads to `exit(1)`
(lines 47-50) before the loops are entered; the loops hold no `break`,
`return` or `exit`. -/
def check_and_prioritize_tasks (env : Env) (map_fd : Int) (n : Nat) : Outcome :=
  if map_fd < 0 then Outcome.exited 1 [] else Outcome.running (run env n)

/-- Signals the program sends with `kill` (the probe `kill(pid, 0)` sends none). -/
inductive Signal where
  | SIGSTOP
  | SIGCONT
deriving DecidableEq, Repr

/-- System calls behind the actions of the trace. -/
inductive Syscall where
  | kill (pid : Nat) (sig : Signal)
  | nanosleep (secs : Nat)
  | setpriority (pid : Nat) (prio : Int)
  | sleep (secs : Nat)
  | close
deriving DecidableEq, Repr

/-- The system call made by each action: `pause_lower_priority_task` (lines
25-30) and `resume_lower_priority_task` (lines 33-38) send a signal to the
task, `throttle_lower_priority_tasks` (lines 52-59) only calls `nanosleep`,
which names no task. -/
def syscallOf : Action → Syscall
  | Action.pause pid => Syscall.kill pid Signal.SIGSTOP
  | Action.resume pid => Syscall.kill pid Signal.SIGCONT
  | Action.throttle _ secs => Syscall.nanosleep secs
  | Action.setpriority pid prio => Syscall.setpriority pid prio
  | Action.sleep secs => Syscall.sleep secs
  | Action.close => Syscall.close

/-- Calls of the BPF map interface.  The first two read the map, the last two
change it. -/
inductive MapCall where
  | get_next_key (key : Nat)
  | lookup_elem (key : Nat)
  | update_elem (key : Nat) (value : task_info)
  | delete_elem (key : Nat)
deriving DecidableEq, Repr

/-- The map after a call: `bpf_map_update_elem` replaces the value stored under
the key or adds an entry, `bpf_map_delete_elem` removes the entry, the two
reading calls leave the map as it is. -/
def applyCall (reg : Registry) : MapCall → Registry
  | MapCall.get_next_key _ => reg
  | MapCall.lookup_elem _ => reg
  | MapCall.update_elem key value =>
    if key ∈ keys reg then reg.map (fun e => if e.1 = key then (key, value) else e)
    else reg ++ [(key, value)]
  | MapCall.delete_elem key => reg.filter (fun e => e.1 != key)

/-- Calls that read the map. -/
def isRead : MapCall → Bool
  | MapCall.get_next_key _ => true
  | MapCall.lookup_elem _ => true
  | MapCall.update_elem _ _ => false
  | MapCall.delete_elem _ => false

/-- The map as the kernel holds it, with the calls made on it so far. -/
structure MapState where
  map : Registry
  calls : List MapCall
deriving DecidableEq, Repr

/-- The kernel executes one call on the map. -/
def issue (k : MapState) (c : MapCall) : MapState :=
  { map := applyCall k.map c, calls := k.calls ++ [c] }

/-- Call `bpf_map_get_next_key(map_fd, &key, &next_key)` on the current map. -/
def get_next_key_call (k : MapState) (key : Nat) : Option Nat × MapState :=
  (bpf_map_get_next_key k.map key, issue k (MapCall.get_next_key key))

/-- Call `bpf_map_lookup_elem(map_fd, &key, &value)` on the current map. -/
def lookup_elem_call (k : MapState) (key : Nat) : Option task_info × MapState :=
  (bpf_map_lookup_elem k.map key, issue k (MapCall.lookup_elem key))

/-- The walk of lines 90-99 and 125-132 with the map as state: the actions
issued and the map state after the walk. -/
def scanClassW (alive : Nat → Bool) (act : Nat → Action) (i : Int) :
    Nat → MapState → Nat → List Action × MapState
  | 0, k, _ => ([], k)
  | fuel + 1, k, lower_key =>
    let r := get_next_key_call k lower_key
    match r.1 with
    | none => ([], r.2)
    | some lower_next_key =>
      let l := lookup_elem_call r.2 lower_next_key
      let rest := scanClassW alive act i fuel l.2 lower_next_key
      ((match l.1 with
        | some lower_task =>
          if lower_task.priority_class = toU64 i ∧ alive lower_task.pid = true then
            [act lower_task.pid]
          else []
        | none => []) ++ rest.1, rest.2)

/-- The class loop of lines 86-100 and 121-133 with the map as state, over the
values of its counter. -/
def forClassesW (alive : Nat → Bool) (act : Nat → Action) :
    List Int → MapState → List Action × MapState
  | [], k => ([], k)
  | i :: rest, k =>
    let r := scanClassW alive act i (k.map.length + 1) k 0
    let r2 := forClassesW alive act rest r.2
    (r.1 ++ r2.1, r2.2)

/-- The per-record pipeline of lines 77-117 with the map as state. -/
def evaluateW (alive : Nat → Bool) (current_time : Nat) (task : task_info) (indicator : Bool)
    (k : MapState) : (Bool × List Action) × MapState :=
  let latency := latencyOf current_time task.start_time
  if task.time_sensitive = true ∧ task.max_latency < latency then
    let r := forClassesW alive (fun p => Action.throttle p 5)
      (classesFrom (toInt32 ((task.priority_class + 1) % 2 ^ 64))) k
    ((true, r.1 ++ [Action.setpriority task.pid (-20)]), r.2)
  else if task.time_sensitive = true then
    if approaching latency task.max_latency = true then
      ((indicator, [Action.setpriority task.pid (-10)]), k)
    else if halfway latency task.max_latency = true then
      ((indicator, [Action.setpriority task.pid 0]), k)
    else ((indicator, []), k)
  else ((indicator, []), k)

/-- The program state together with the map state. -/
structure World where
  st : State
  kernel : MapState
deriving DecidableEq, Repr

/-- The end of one iteration, lines 119-139, with the map as state. -/
def finishIterationW (alive : Nat → Bool) (st : State) (next_key : Nat) (indicator : Bool)
    (acts : List Action) (k : MapState) : World :=
  if indicator = false then
    let r := forClassesW alive Action.resume (classesFrom 1) k
    { st := { st with
        key := next_key
        indicator := indicator
        trace := st.trace
          ++ ((acts ++ r.1) ++ [Action.sleep CHECK_INTERVAL]).map (fun a => (st.cycle, a)) },
      kernel := r.2 }
  else
    { st := { st with
        indicator := indicator
        trace := st.trace ++ (acts ++ [Action.sleep CHECK_INTERVAL]).map (fun a => (st.cycle, a)) },
      kernel := k }

/-- One step of the program with the map as state: every call of the BPF map
interface made by lines 69-140 is executed on the current map, in program
order.  A call on the closed descriptor does not reach the map. -/
def worldStep (alive : Nat → Bool) (time : Nat → Nat) (w : World) : World :=
  let r := if w.st.map_open = true then get_next_key_call w.kernel w.st.key
    else (none, w.kernel)
  match r.1 with
  | some next_key =>
    let l := lookup_elem_call r.2 next_key
    match l.1 with
    | some task =>
      if alive task.pid = false then { st := w.st, kernel := l.2 }
      else
        let e := evaluateW alive w.st.current_time task w.st.indicator l.2
        finishIterationW alive w.st next_key e.1.1 e.1.2 e.2
    | none => finishIterationW alive w.st next_key w.st.indicator [] l.2
  | none =>
    { st := { w.st with
        map_open := false
        indicator := false
        current_time := timeNs (time (w.st.cycle + 1))
        cycle := w.st.cycle + 1
        trace := w.st.trace ++ [(w.st.cycle, Action.close)] },
      kernel := r.2 }

/-- The world after `n` steps of the program, started on the map of the
environment with no call made yet. -/
def worldRun (env : Env) : Nat → World
  | 0 => { st := init env, kernel := { map := env.reg, calls := [] } }
  | n + 1 => worldStep env.alive env.time (worldRun env n)

/-- The map state `k2` arises from `k` through reading calls only: the map is
the same and the calls added are all reads. -/
def ReadsOnly (k k2 : MapState) : Prop :=
  k2.map = k.map ∧ ∃ cs : List MapCall, k2.calls = k.calls ++ cs ∧ ∀ c ∈ cs, isRead c = true

/-- Live entries of the classes `lo, lo + 1, ..., lo + n - 1`, class by class
and in the order of the map within a class. -/
def inClassOrder (alive : Nat → Bool) (lo n : Nat) (reg : Registry) : Registry :=
  (List.range' lo n).flatMap
    (fun c => reg.filter (fun e => decide (e.2.priority_class = c) && alive e.2.pid))

/-- Kinds of action the program can issue. -/
def Issuable (a : Action) : Prop :=
  (∃ p, a = Action.throttle p 5) ∨ (∃ p v, a = Action.setpriority p v) ∨
  (∃ p, a = Action.resume p) ∨ a = Action.sleep CHECK_INTERVAL ∨ a = Action.close

/-- A list of entries ordered as the class loop issues them: classes never
decrease along the list, and for every class `c` the entries of that class are
the live entries of class `c` in the order of the map when `lo <= c < lo + n`,
and none otherwise. -/
def ClassOrdered (alive : Nat → Bool) (lo n : Nat) (reg es : Registry) : Prop :=
  es.Pairwise (fun a b => a.2.priority_class ≤ b.2.priority_class) ∧
  ∀ c : Nat, es.filter (fun e => decide (e.2.priority_class = c))
    = if lo ≤ c ∧ c < lo + n then
        reg.filter (fun e => decide (e.2.priority_class = c) && alive e.2.pid)
      else []

/-- Actions of one escalation for the record `r`, followed by the tick sleep. -/
def escalationBlock (env : Env) (r : task_info) : List Action :=
  throttleLower env.reg env.alive r.priority_class
    ++ [Action.setpriority r.pid (-20), Action.sleep CHECK_INTERVAL]

/-! ## Further scenarios -/

/-- Record at 20% of its deadline of 1 s at the time 1700000000 s. -/
def recFifth : task_info :=
  { pid := 8, time_sensitive := true, max_latency := 1000000000,
    start_time := 1700000000000000000 - 200000000, end_time := 0, priority_class := 3 }

/-- Record whose deadline `2 ^ 54 + 1` is rounded down by the conversion to
`double`; its latency at the time 1700000000 s is `2 ^ 53`, just below one half
of the deadline. -/
def belowHalfTask : task_info :=
  { pid := 8, time_sensitive := true, max_latency := 2 ^ 54 + 1,
    start_time := 1700000000000000000 - 2 ^ 53, end_time := 0, priority_class := 3 }

/-- Record of class 1 whose start time lies one second after the time
1700000000 s, with a deadline of one hour. -/
def recFuture : task_info :=
  { pid := 103, time_sensitive := true, max_latency := 3600000000000,
    start_time := 1700000000000000000 + 1000000000, end_time := 0, priority_class := 1 }

/-- Overtime record whose class `2 ^ 32 - 2` makes the counter of the throttle
loop start at `-1`. -/
def recWrap : task_info :=
  { pid := 104, time_sensitive := true, max_latency := 1000000000,
    start_time := 1700000000000000000 - 2000000000, end_time := 0,
    priority_class := 2 ^ 32 - 2 }

/-- Record of the class `2 ^ 64 - 1`, the value `(uint64_t) -1`. -/
def recHuge : task_info :=
  { pid := 105, time_sensitive := false, max_latency := 0, start_time := 0, end_time := 0,
    priority_class := 2 ^ 64 - 1 }

/-- Record of class 0. -/
def recZero : task_info :=
  { pid := 106, time_sensitive := false, max_latency := 0, start_time := 0, end_time := 0,
    priority_class := 0 }

/-- Record of class 6. -/
def recSix : task_info :=
  { pid := 107, time_sensitive := false, max_latency := 0, start_time := 0, end_time := 0,
    priority_class := 6 }

/-- Second record of class 2, stored behind B in the scenarios. -/
def recB2 : task_info :=
  { pid := 108, time_sensitive := false, max_latency := 0, start_time := 0, end_time := 0,
    priority_class := 2 }

/-- Map holding the wrapping record, then C, then the record of class
`2 ^ 64 - 1`, every task alive. -/
def wrapEnv : Env :=
  { reg := [(1, recWrap), (2, recC), (3, recHuge)], alive := fun _ => true,
    time := scenarioTime }

/-- Map holding A and records of the classes 0, 6, 3, 2 and 2, every task alive. -/
def mixedEnv : Env :=
  { reg := [(1, recZero), (2, recSix), (3, recC), (4, recB), (5, recA), (6, recB2)],
    alive := fun _ => true, time := scenarioTime }

/-- Third record of class 2. -/
def recB3 : task_info :=
  { pid := 109, time_sensitive := false, max_latency := 0, start_time := 0, end_time := 0,
    priority_class := 2 }

/-- Map holding B under the key 0 before the overtime record A, every task
alive. -/
def zeroKeyEnv : Env :=
  { reg := [(0, recB), (2, recA)], alive := fun _ => true, time := scenarioTime }

/-- Map holding three records of class 2, the second one under the key 0,
every task alive. -/
def zeroMiddleEnv : Env :=
  { reg := [(1, recB), (0, recB2), (2, recB3)], alive := fun _ => true, time := scenarioTime }

/-- Map holding the record that starts in the future before B, every task alive. -/
def futureEnv : Env :=
  { reg := [(1, recFuture), (2, recB)], alive := fun _ => true, time := scenarioTime }

/-! ## Lemmas on the map walks -/

/-- A key that is not stored has no position in the map. -/
theorem keyAfter_absent (key : Nat) (reg : Registry) (h : key ∉ keys reg) :
    keyAfter key reg = none := by
  induction reg with
  | nil => rfl
  | cons e rest ih =>
    obtain ⟨k, t⟩ := e
    simp only [keys, List.map_cons, List.mem_cons, not_or] at h
    have hk : ¬ k = key := fun hh => h.1 hh.symm
    simp only [keyAfter, hk, if_false]
    exact ih h.2

/-- The key stored right after `k` is the first key of the entries behind `k`. -/
theorem keyAfter_split (k : Nat) (t : task_info) (pre suf : Registry) (h : k ∉ keys pre) :
    keyAfter k (pre ++ (k, t) :: suf) = some (suf.head?.map Prod.fst) := by
  induction pre with
  | nil => simp [keyAfter]
  | cons e rest ih =>
    obtain ⟨k2, t2⟩ := e
    simp only [keys, List.map_cons, List.mem_cons, not_or] at h
    have hk : ¬ k2 = k := fun hh => h.1 hh.symm
    simp only [List.cons_append, keyAfter, hk, if_false]
    exact ih h.2

/-- Looking up a stored key returns its first value. -/
theorem lookup_split (k : Nat) (t : task_info) (pre suf : Registry) (h : k ∉ keys pre) :
    bpf_map_lookup_elem (pre ++ (k, t) :: suf) k = some t := by
  induction pre with
  | nil => simp [bpf_map_lookup_elem]
  | cons e rest ih =>
    obtain ⟨k2, t2⟩ := e
    simp only [keys, List.map_cons, List.mem_cons, not_or] at h
    have hk : ¬ k2 = k := fun hh => h.1 hh.symm
    simp only [List.cons_append, bpf_map_lookup_elem, hk, if_false]
    exact ih h.2

/-- A successful lookup returns an entry of the map. -/
theorem lookup_mem (reg : Registry) (k : Nat) (t : task_info)
    (h : bpf_map_lookup_elem reg k = some t) : (k, t) ∈ reg := by
  induction reg with
  | nil => simp [bpf_map_lookup_elem] at h
  | cons e rest ih =>
    obtain ⟨k2, t2⟩ := e
    by_cases hk : k2 = k
    · simp [bpf_map_lookup_elem, hk] at h
      simp [hk, h]
    · simp only [bpf_map_lookup_elem, hk, if_false] at h
      exact List.mem_cons_of_mem _ (ih h)

/-- A walk started at the key `k` of a map with distinct keys visits exactly the
entries behind `k`, once each, whenever the bound exceeds their number. -/
theorem scanClass_split (alive : Nat → Bool) (act : Nat → Action) (i : Int) :
    ∀ (suf pre : Registry) (k : Nat) (t : task_info) (fuel : Nat),
      (keys (pre ++ (k, t) :: suf)).Nodup → suf.length < fuel →
      scanClass (pre ++ (k, t) :: suf) alive act i fuel k = matched alive act (toU64 i) suf := by
  intro suf
  induction suf with
  | nil =>
    intro pre k t fuel hnd hfuel
    obtain ⟨f, rfl⟩ : ∃ f, fuel = f + 1 := ⟨fuel - 1, by omega⟩
    have hk : k ∉ keys pre := by
      simp only [keys, List.map_append, List.map_cons, List.map_nil] at hnd
      have := (List.nodup_append.mp hnd).2.2
      intro hmem
      exact this hmem (List.mem_cons_self _ _)
    simp [scanClass, bpf_map_get_next_key, keyAfter_split k t pre [] hk, matched]
  | cons e suf ih =>
    intro pre k t fuel hnd hfuel
    obtain ⟨k2, t2⟩ := e
    obtain ⟨f, rfl⟩ : ∃ f, fuel = f + 1 := ⟨fuel - 1, by omega⟩
    have hk : k ∉ keys pre := by
      simp only [keys, List.map_append, List.map_cons] at hnd
      have := (List.nodup_append.mp hnd).2.2
      intro hmem
      exact this hmem (List.mem_cons_self _ _)
    have hre : pre ++ (k, t) :: (k2, t2) :: suf = (pre ++ [(k, t)]) ++ (k2, t2) :: suf := by simp
    have hnd2 : (keys ((pre ++ [(k, t)]) ++ (k2, t2) :: suf)).Nodup := by rw [← hre]; exact hnd
    have hk2 : k2 ∉ keys (pre ++ [(k, t)]) := by
      simp only [keys, List.map_append, List.map_cons] at hnd2
      have := (List.nodup_append.mp hnd2).2.2
      intro hmem
      exact this (by simpa [keys] using hmem) (List.mem_cons_self _ _)
    have hnext : bpf_map_get_next_key (pre ++ (k, t) :: (k2, t2) :: suf) k = some k2 := by
      simp [bpf_map_get_next_key, keyAfter_split k t pre _ hk]
    have hlook : bpf_map_lookup_elem (pre ++ (k, t) :: (k2, t2) :: suf) k2 = some t2 := by
      rw [hre]; exact lookup_split k2 t2 _ suf hk2
    have hrec := ih (pre ++ [(k, t)]) k2 t2 f hnd2 (by simp at hfuel; omega)
    rw [← hre] at hrec
    simp only [scanClass, hnext, hlook, hrec]
    by_cases hc : t2.priority_class = toU64 i ∧ alive t2.pid = true
    · simp [matched, hc, List.filter_cons]
    · rw [if_neg hc]
      have : (decide (t2.priority_class = toU64 i) && alive t2.pid) = false := by
        simpa using hc
      simp [matched, List.filter_cons, this]

/-- A walk started at the cursor `0` of a well-formed map visits every entry
once: every bound above the number of entries gives the same actions. -/
theorem scanClass_whole (alive : Nat → Bool) (act : Nat → Action) (i : Int) (reg : Registry)
    (hwf : WellFormed reg) (fuel : Nat) (hfuel : reg.length < fuel) :
    scanClass reg alive act i fuel 0 = matched alive act (toU64 i) reg := by
  obtain ⟨f, rfl⟩ : ∃ f, fuel = f + 1 := ⟨fuel - 1, by omega⟩
  cases reg with
  | nil => simp [scanClass, bpf_map_get_next_key, keyAfter, matched]
  | cons e suf =>
    obtain ⟨k, t⟩ := e
    have h0 := keyAfter_absent 0 _ hwf.2
    have hnext : bpf_map_get_next_key ((k, t) :: suf) 0 = some k := by
      simp [bpf_map_get_next_key, h0]
    have hlook : bpf_map_lookup_elem ((k, t) :: suf) k = some t := by
      simp [bpf_map_lookup_elem]
    have hrec := scanClass_split alive act i suf [] k t f hwf.1 (by simp at hfuel; omega)
    simp only [List.nil_append] at hrec
    simp only [scanClass, hnext, hlook, hrec]
    by_cases hc : t.priority_class = toU64 i ∧ alive t.pid = true
    · simp [matched, hc, List.filter_cons]
    · rw [if_neg hc]
      have : (decide (t.priority_class = toU64 i) && alive t.pid) = false := by
        simpa using hc
      simp [matched, List.filter_cons, this]

/-- Walking the map once per class of a duplicate-free list of classes acts on
exactly the live entries whose class is in the list. -/
theorem matched_classes_perm (alive : Nat → Bool) (act : Nat → Action) (l : Registry) :
    ∀ cs : List Nat, cs.Nodup →
      (cs.flatMap (fun c => matched alive act c l)).Perm
        ((l.filter (fun e => decide (e.2.priority_class ∈ cs) && alive e.2.pid)).map
          (fun e => act e.2.pid)) := by
  intro cs
  induction cs with
  | nil => intro _; simp
  | cons c cs ih =>
    intro hnd
    have hc : c ∉ cs := (List.nodup_cons.mp hnd).1
    have hsplit := List.filter_append_perm (fun e : Nat × task_info => decide (e.2.priority_class = c))
      (l.filter (fun e => decide (e.2.priority_class ∈ c :: cs) && alive e.2.pid))
    have h1 : (l.filter (fun e => decide (e.2.priority_class ∈ c :: cs) && alive e.2.pid)).filter
        (fun e : Nat × task_info => decide (e.2.priority_class = c))
        = l.filter (fun e => decide (e.2.priority_class = c) && alive e.2.pid) := by
      rw [List.filter_filter]
      apply List.filter_congr
      intro e _
      by_cases h : e.2.priority_class = c <;> simp [h]
    have h2 : (l.filter (fun e => decide (e.2.priority_class ∈ c :: cs) && alive e.2.pid)).filter
        (fun e : Nat × task_info => !decide (e.2.priority_class = c))
        = l.filter (fun e => decide (e.2.priority_class ∈ cs) && alive e.2.pid) := by
      rw [List.filter_filter]
      apply List.filter_congr
      intro e _
      by_cases h : e.2.priority_class = c
      · have : e.2.priority_class ∉ cs := by rw [h]; exact hc
        simp [h, this, hc]
      · simp [h]
    rw [h1, h2] at hsplit
    have hmap := hsplit.map (fun e : Nat × task_info => act e.2.pid)
    rw [List.map_append] at hmap
    rw [List.flatMap_cons]
    refine List.Perm.trans ?_ hmap
    exact List.Perm.append_left _ (ih (List.nodup_cons.mp hnd).2)

/-- For a class in `1..5` the throttle loop counts from the next class up to 5. -/
theorem classes_above (pc : Nat) (h1 : 1 ≤ pc) (h5 : pc ≤ 5) :
    (classesFrom (toInt32 ((pc + 1) % 2 ^ 64))).map toU64 = List.range' (pc + 1) (5 - pc) := by
  interval_cases pc <;> decide

/-- On a well-formed map the class loop is a sequence of complete walks. -/
theorem forClasses_eq (reg : Registry) (alive : Nat → Bool) (act : Nat → Action) (start : Int)
    (hwf : WellFormed reg) :
    forClasses reg alive act start
      = ((classesFrom start).map toU64).flatMap (fun c => matched alive act c reg) := by
  unfold forClasses
  induction classesFrom start with
  | nil => rfl
  | cons i rest ih =>
    simp only [List.flatMap_cons, List.map_cons, ih]
    rw [scanClass_whole alive act i reg hwf _ (Nat.lt_succ_self _)]

/-- On a well-formed map with classes in `1..5`, the throttle loop acts once on
each live entry of a strictly greater class and on nothing else. -/
theorem throttleLower_perm (reg : Registry) (alive : Nat → Bool) (pc : Nat)
    (hwf : WellFormed reg)
    (hcls : ∀ e ∈ reg, 1 ≤ e.2.priority_class ∧ e.2.priority_class ≤ 5)
    (h1 : 1 ≤ pc) (h5 : pc ≤ 5) :
    (throttleLower reg alive pc).Perm
      ((reg.filter (fun e => alive e.2.pid && decide (pc < e.2.priority_class))).map
        (fun e => Action.throttle e.2.pid 5)) := by
  unfold throttleLower
  rw [forClasses_eq _ _ _ _ hwf, classes_above pc h1 h5]
  have hp := matched_classes_perm alive (fun p => Action.throttle p 5) reg
    (List.range' (pc + 1) (5 - pc)) (List.nodup_range' _ _)
  have hfilter : reg.filter (fun e => decide (e.2.priority_class ∈ List.range' (pc + 1) (5 - pc))
        && alive e.2.pid)
      = reg.filter (fun e => alive e.2.pid && decide (pc < e.2.priority_class)) := by
    apply List.filter_congr
    intro e he
    have hb := (hcls e he).2
    have hiff : e.2.priority_class ∈ List.range' (pc + 1) (5 - pc) ↔ pc < e.2.priority_class := by
      rw [List.mem_range'_1]; omega
    by_cases h : pc < e.2.priority_class
    · simp [hiff, h]
    · simp [hiff, h]
  rw [hfilter] at hp
  exact hp

/-! ## Lemmas on the latency thresholds -/

/-- Numbers below `2 ^ 53` are stored exactly in a `double`. -/
theorem roundNearestEven_small (q : Nat) (h : q < 2 ^ 53) : roundNearestEven q = q := by
  have hd : droppedBits (127 + 1) q = 0 := by
    rw [droppedBits]; exact if_pos h
  have hd2 : droppedBits 128 q = 0 := hd
  simp [roundNearestEven, hd2, Nat.mod_one]

/-- Below `2 ^ 53` the 75% test is the exact comparison `3 * max <= 4 * latency`. -/
theorem approaching_exact (latency max_latency : Nat) (hm : 3 * max_latency < 2 ^ 53)
    (hl : latency < 2 ^ 53) :
    approaching latency max_latency = decide (3 * max_latency ≤ 4 * latency) := by
  have h1 : roundNearestEven max_latency = max_latency := roundNearestEven_small _ (by omega)
  have h2 : roundNearestEven latency = latency := roundNearestEven_small _ hl
  have h3 : roundNearestEven (3 * max_latency) = 3 * max_latency := roundNearestEven_small _ hm
  simp [approaching, u64_to_double, h1, h2, h3]

/-- Below `2 ^ 53` the 50% test is the exact comparison `max <= 2 * latency`. -/
theorem halfway_exact (latency max_latency : Nat) (hm : max_latency < 2 ^ 53)
    (hl : latency < 2 ^ 53) :
    halfway latency max_latency = decide (max_latency ≤ 2 * latency) := by
  have h1 : roundNearestEven max_latency = max_latency := roundNearestEven_small _ hm
  have h2 : roundNearestEven latency = latency := roundNearestEven_small _ hl
  simp [halfway, u64_to_double, h1, h2]

/-! ## Lemmas on the run -/

/-- One step only appends to the trace. -/
theorem step_trace (env : Env) (st : State) (T : List (Nat × Action)) :
    step env { st with trace := T }
      = { step env { st with trace := [] } with
          trace := T ++ (step env { st with trace := [] }).trace } := by
  unfold step
  simp only []
  split
  · split
    · split_ifs <;> simp [finishIteration]
    · simp [finishIteration]
  · simp

/-- Every state of the run on the map holding the overtime record alone. -/
theorem overtime_run (n : Nat) :
    run overtimeEnv (n + 1) =
      { key := 0, indicator := true, current_time := 1700000000000000000, map_open := true,
        cycle := 0,
        trace := repeated [(0, Action.setpriority 100 (-20)), (0, Action.sleep 5)] (n + 1) } := by
  induction n with
  | zero => decide
  | succ n ih =>
    have hs : step overtimeEnv
        { key := 0, indicator := true, current_time := 1700000000000000000, map_open := true,
          cycle := 0, trace := [] }
        = { key := 0, indicator := true, current_time := 1700000000000000000, map_open := true,
            cycle := 0, trace := [(0, Action.setpriority 100 (-20)), (0, Action.sleep 5)] } := by
      decide
    rw [run, ih]
    have := step_trace overtimeEnv
      { key := 0, indicator := true, current_time := 1700000000000000000, map_open := true,
        cycle := 0, trace := [] }
      (repeated [(0, Action.setpriority 100 (-20)), (0, Action.sleep 5)] (n + 1))
    simp only [hs] at this
    rw [this]
    rfl

/-! ## Lemmas for the behaviour claims -/

/-- A value below `2 ^ (53 + k)` loses at most `k` bits. -/
theorem droppedBits_le (fuel : Nat) : ∀ (q k : Nat), q < 2 ^ (53 + k) → droppedBits fuel q ≤ k := by
  induction fuel with
  | zero => intro q k _; simp [droppedBits]
  | succ fuel ih =>
    intro q k hq
    rw [droppedBits]
    split_ifs with h
    · exact Nat.zero_le _
    · cases k with
      | zero => exact absurd hq h
      | succ k =>
        have hq2 : q / 2 < 2 ^ (53 + k) := by
          have : 2 ^ (53 + (k + 1)) = 2 * 2 ^ (53 + k) := by rw [← Nat.add_assoc, Nat.pow_succ]; ring
          rw [this] at hq
          omega
        have := ih (q / 2) k hq2
        omega

/-- Rounding a value below `2 ^ 55` lowers it by at most 3. -/
theorem roundNearestEven_lower (q : Nat) (h : q < 2 ^ 55) : q ≤ roundNearestEven q + 3 := by
  have he : droppedBits 128 q ≤ 2 := droppedBits_le 128 q 2 (by simpa using h)
  have hdm := Nat.div_add_mod q (2 ^ droppedBits 128 q)
  have hlt : q % 2 ^ droppedBits 128 q < 2 ^ droppedBits 128 q := Nat.mod_lt _ (by positivity)
  have hpow : 2 ^ droppedBits 128 q ≤ 4 := by
    calc 2 ^ droppedBits 128 q ≤ 2 ^ 2 := Nat.pow_le_pow_right (by norm_num) he
      _ = 4 := by norm_num
  have hge : q / 2 ^ droppedBits 128 q * 2 ^ droppedBits 128 q ≤ roundNearestEven q := by
    simp only [roundNearestEven]
    split_ifs
    · exact Nat.mul_le_mul_right _ (Nat.le_succ _)
    · exact Nat.le_refl _
  have hcomm : 2 ^ droppedBits 128 q * (q / 2 ^ droppedBits 128 q)
      = q / 2 ^ droppedBits 128 q * 2 ^ droppedBits 128 q := Nat.mul_comm _ _
  omega

/-- Every action of a walk comes from a live entry of the walked class. -/
theorem scanClass_mem (reg : Registry) (alive : Nat → Bool) (act : Nat → Action) (i : Int) :
    ∀ (fuel key : Nat) (a : Action), a ∈ scanClass reg alive act i fuel key →
      ∃ e ∈ reg, e.2.priority_class = toU64 i ∧ alive e.2.pid = true ∧ a = act e.2.pid := by
  intro fuel
  induction fuel with
  | zero => intro key a h; simp [scanClass] at h
  | succ fuel ih =>
    intro key a h
    rw [scanClass] at h
    split at h
    · simp at h
    · rename_i next_key _
      rw [List.mem_append] at h
      rcases h with h | h
      · split at h
        · rename_i t hlook
          split_ifs at h with hc
          · rw [List.mem_singleton] at h
            exact ⟨(next_key, t), lookup_mem _ _ _ hlook, hc.1, hc.2, h⟩
          · simp at h
        · simp at h
      · exact ih next_key a h

/-- The counter of the class loop runs from its start value up to 5. -/
theorem classesFrom_mem (start i : Int) (h : i ∈ classesFrom start) : start ≤ i ∧ i ≤ 5 := by
  unfold classesFrom at h
  rw [List.mem_map] at h
  obtain ⟨k, hk, rfl⟩ := h
  rw [List.mem_range] at hk
  constructor <;> omega

/-- Every action of the class loop comes from a live entry whose class is the
unsigned value of a counter between the start value and 5. -/
theorem forClasses_mem (reg : Registry) (alive : Nat → Bool) (act : Nat → Action) (start : Int)
    (a : Action) (h : a ∈ forClasses reg alive act start) :
    ∃ i : Int, start ≤ i ∧ i ≤ 5 ∧
      ∃ e ∈ reg, e.2.priority_class = toU64 i ∧ alive e.2.pid = true ∧ a = act e.2.pid := by
  simp only [forClasses, List.mem_flatMap] at h
  obtain ⟨i, hi, ha⟩ := h
  have := classesFrom_mem start i hi
  exact ⟨i, this.1, this.2, scanClass_mem reg alive act i _ _ a ha⟩

/-- The unsigned value of a counter in `0..5` is the counter. -/
theorem toU64_small (i : Int) (h0 : 0 ≤ i) (h5 : i ≤ 5) : (toU64 i : Int) = i := by
  unfold toU64
  omega

/-- A class that, plus one, converts to a non-negative `int` starts the
throttle loop at a non-negative counter. -/
theorem toInt32_nonneg (pc : Nat) (h : (pc + 1) % 2 ^ 32 < 2 ^ 31) :
    0 ≤ toInt32 ((pc + 1) % 2 ^ 64) := by
  unfold toInt32
  have : (pc + 1) % 2 ^ 64 % 2 ^ 32 = (pc + 1) % 2 ^ 32 := by omega
  rw [this, if_pos h]
  exact Int.natCast_nonneg _

/-- For a class below `2 ^ 31 - 1` the throttle loop counts from the next class
up to 5. -/
theorem classes_next (pc : Nat) (h : pc + 1 < 2 ^ 31) :
    (classesFrom (toInt32 ((pc + 1) % 2 ^ 64))).map toU64 = List.range' (pc + 1) (5 - pc) := by
  by_cases h5 : 5 ≤ pc
  · have hconv : toInt32 ((pc + 1) % 2 ^ 64) = ((pc + 1 : Nat) : Int) := by
      unfold toInt32
      have h1 : (pc + 1) % 2 ^ 64 % 2 ^ 32 = pc + 1 := by omega
      rw [h1, if_pos h]
    have hz : (6 - ((pc + 1 : Nat) : Int)).toNat = 0 := by omega
    have hz2 : 5 - pc = 0 := by omega
    rw [hconv, classesFrom, hz, hz2]
    rfl
  · have hle : pc ≤ 4 := by omega
    interval_cases pc <;> decide

/-- The resume loop counts from class 1 up to 5. -/
theorem classes_resume : (classesFrom 1).map toU64 = List.range' 1 5 := by decide

/-- The actions of the class loop over `lo .. lo + n - 1`, as a map over the
entries in class order. -/
theorem flatMap_matched (alive : Nat → Bool) (act : Nat → Action) (reg : Registry)
    (lo n : Nat) :
    (List.range' lo n).flatMap (fun c => matched alive act c reg)
      = (inClassOrder alive lo n reg).map (fun e => act e.2.pid) := by
  unfold inClassOrder
  simp only [matched]
  induction List.range' lo n with
  | nil => rfl
  | cons c rest ih => simp only [List.flatMap_cons, List.map_append, ih]

/-- The entries in class order are ordered by class and keep the order of the
map within a class. -/
theorem inClassOrder_ordered (alive : Nat → Bool) (reg : Registry) :
    ∀ (n lo : Nat), ClassOrdered alive lo n reg (inClassOrder alive lo n reg) := by
  intro n lo
  constructor
  · unfold inClassOrder
    rw [List.pairwise_flatMap]
    constructor
    · intro c _
      rw [List.pairwise_iff_forall_sublist]
      intro a b hab
      have ha := hab.subset (List.mem_cons_self _ _)
      have hb := hab.subset (List.mem_cons_of_mem _ (List.mem_cons_self _ _))
      simp only [List.mem_filter, Bool.and_eq_true, decide_eq_true_eq] at ha hb
      omega
    · have hlt : (List.range' lo n).Pairwise (· < ·) := List.pairwise_lt_range' lo n
      refine hlt.imp ?_
      intro c1 c2 h12 x hx y hy
      simp only [List.mem_filter, Bool.and_eq_true, decide_eq_true_eq] at hx hy
      omega
  · intro c
    induction n generalizing lo with
    | zero =>
      have : ¬ (lo ≤ c ∧ c < lo + 0) := by omega
      simp [inClassOrder, this]
    | succ n ih =>
      have hrec := ih (lo + 1)
      unfold inClassOrder at hrec ⊢
      rw [List.range'_succ, List.flatMap_cons, List.filter_append, hrec, List.filter_filter]
      by_cases hc : lo = c
      · subst hc
        have h1 : ¬ (lo + 1 ≤ lo ∧ lo < lo + 1 + n) := by omega
        have h2 : lo ≤ lo ∧ lo < lo + (n + 1) := by omega
        rw [if_neg h1, if_pos h2, List.append_nil]
        apply List.filter_congr
        intro e _
        by_cases he : e.2.priority_class = lo <;> simp [he]
      · have hnil : reg.filter (fun a => decide (a.2.priority_class = c)
            && (decide (a.2.priority_class = lo) && alive a.2.pid)) = [] := by
          rw [List.filter_eq_nil_iff]
          intro e _
          by_cases he : e.2.priority_class = c
          · have : ¬ c = lo := fun h => hc h.symm
            simp [he, this]
          · simp [he]
        rw [hnil, List.nil_append]
        by_cases hin : lo + 1 ≤ c ∧ c < lo + 1 + n
        · have : lo ≤ c ∧ c < lo + (n + 1) := by omega
          rw [if_pos hin, if_pos this]
        · have : ¬ (lo ≤ c ∧ c < lo + (n + 1)) := by omega
          rw [if_neg hin, if_neg this]

/-- The pipeline issues throttles of 5 seconds and priority calls only. -/
theorem evaluate_actions (reg : Registry) (alive : Nat → Bool) (current_time : Nat)
    (task : task_info) (indicator : Bool) (a : Action)
    (h : a ∈ (evaluate reg alive current_time task indicator).2) :
    (∃ p, a = Action.throttle p 5) ∨ (∃ p v, a = Action.setpriority p v) := by
  unfold evaluate at h
  simp only [] at h
  split_ifs at h
  · rw [List.mem_append, List.mem_singleton] at h
    rcases h with h | h
    · obtain ⟨_, _, _, e, _, _, _, rfl⟩ := forClasses_mem _ _ _ _ a h
      exact Or.inl ⟨_, rfl⟩
    · exact Or.inr ⟨_, _, h⟩
  · rw [List.mem_singleton] at h; exact Or.inr ⟨_, _, h⟩
  · rw [List.mem_singleton] at h; exact Or.inr ⟨_, _, h⟩
  · simp at h
  · simp at h

/-- The end of an iteration adds the given actions, resumes and one sleep. -/
theorem finishIteration_mem (env : Env) (st : State) (next_key : Nat) (indicator : Bool)
    (acts : List Action) (e : Nat × Action)
    (h : e ∈ (finishIteration env st next_key indicator acts).trace) :
    e ∈ st.trace ∨ e.2 ∈ acts ∨ (indicator = false ∧ e.2 ∈ resumeAll env.reg env.alive) ∨
      e.2 = Action.sleep CHECK_INTERVAL := by
  simp only [finishIteration, List.mem_append, List.mem_map, List.mem_singleton] at h
  rcases h with h | ⟨a, ha, rfl⟩
  · exact Or.inl h
  · rcases ha with ha | ha
    · split_ifs at ha with hi
      · rw [List.mem_append] at ha
        rcases ha with ha | ha
        · exact Or.inr (Or.inl ha)
        · exact Or.inr (Or.inr (Or.inl ⟨hi, ha⟩))
      · exact Or.inr (Or.inl ha)
    · exact Or.inr (Or.inr (Or.inr ha))

/-- One step keeps the trace and adds issuable actions only. -/
theorem step_mem (env : Env) (st : State) (e : Nat × Action) (h : e ∈ (step env st).trace) :
    e ∈ st.trace ∨ Issuable e.2 := by
  unfold step at h
  split at h
  · split at h
    · split_ifs at h
      · exact Or.inl h
      · rcases finishIteration_mem _ _ _ _ _ e h with h | h | h | h
        · exact Or.inl h
        · rcases evaluate_actions _ _ _ _ _ _ h with ⟨p, hp⟩ | ⟨p, v, hp⟩
          · exact Or.inr (Or.inl ⟨p, hp⟩)
          · exact Or.inr (Or.inr (Or.inl ⟨p, v, hp⟩))
        · obtain ⟨_, _, _, x, _, _, _, hx⟩ := forClasses_mem _ _ _ _ _ h.2
          exact Or.inr (Or.inr (Or.inr (Or.inl ⟨_, hx⟩)))
        · exact Or.inr (Or.inr (Or.inr (Or.inr (Or.inl h))))
    · rcases finishIteration_mem _ _ _ _ _ e h with h | h | h | h
      · exact Or.inl h
      · simp at h
      · obtain ⟨_, _, _, x, _, _, _, hx⟩ := forClasses_mem _ _ _ _ _ h.2
        exact Or.inr (Or.inr (Or.inr (Or.inl ⟨_, hx⟩)))
      · exact Or.inr (Or.inr (Or.inr (Or.inr (Or.inl h))))
  · simp only [List.mem_append, List.mem_singleton] at h
    rcases h with h | h
    · exact Or.inl h
    · right
      subst h
      exact Or.inr (Or.inr (Or.inr (Or.inr rfl)))

/-- Every action of a run is issuable. -/
theorem run_issuable (env : Env) (n : Nat) : ∀ e ∈ (run env n).trace, Issuable e.2 := by
  induction n with
  | zero => intro e h; simp [run, init] at h
  | succ n ih =>
    intro e h
    rw [run] at h
    rcases step_mem env _ e h with h | h
    · exact ih e h
    · exact h

/-- The iteration that escalates for `r` sets the indicator, appends the
escalation block and changes nothing else. -/
theorem step_escalation (env : Env) (st : State) (k : Nat) (r : task_info)
    (hopen : st.map_open = true)
    (hnext : bpf_map_get_next_key env.reg st.key = some k)
    (hlook : bpf_map_lookup_elem env.reg k = some r)
    (halive : env.alive r.pid = true)
    (hsens : r.time_sensitive = true)
    (hover : r.max_latency < latencyOf st.current_time r.start_time) :
    step env st = { st with
      indicator := true
      trace := st.trace ++ (escalationBlock env r).map (fun a => (st.cycle, a)) } := by
  simp [step, hopen, hnext, hlook, halive, evaluate, hsens, hover, finishIteration,
    escalationBlock]

/-- All states after an escalation: the same iteration is repeated. -/
theorem runFrom_escalation (env : Env) (st : State) (k : Nat) (r : task_info)
    (hopen : st.map_open = true)
    (hnext : bpf_map_get_next_key env.reg st.key = some k)
    (hlook : bpf_map_lookup_elem env.reg k = some r)
    (halive : env.alive r.pid = true)
    (hsens : r.time_sensitive = true)
    (hover : r.max_latency < latencyOf st.current_time r.start_time) (n : Nat) :
    runFrom env st (n + 1) = { st with
      indicator := true
      trace := st.trace
        ++ repeated ((escalationBlock env r).map (fun a => (st.cycle, a))) (n + 1) } := by
  induction n with
  | zero =>
    rw [runFrom, runFrom, step_escalation env st k r hopen hnext hlook halive hsens hover]
    simp [repeated]
  | succ n ih =>
    rw [runFrom, ih]
    have hstep := step_escalation env
      { st with
        indicator := true
        trace := st.trace
          ++ repeated ((escalationBlock env r).map (fun a => (st.cycle, a))) (n + 1) }
      k r hopen hnext hlook halive hsens hover
    rw [hstep]
    simp [repeated]

/-- A step that clears a set indicator is the head of the next cycle. -/
theorem step_clears_indicator (env : Env) (s : State) (hset : s.indicator = true)
    (hclear : (step env s).indicator = false) : (step env s).cycle = s.cycle + 1 := by
  unfold step at hclear ⊢
  split
  · rename_i next_key hnext
    rw [hnext] at hclear
    simp only [] at hclear
    split at hclear
    · split_ifs at hclear with hal
      · rw [hset] at hclear; cases hclear
      · simp only [finishIteration, evaluate, hset] at hclear
        split_ifs at hclear
    · simp [finishIteration, hset] at hclear
  · rfl

/-! ## Lemmas on the map as state -/

/-- No call at all reads only. -/
theorem readsOnly_refl (k : MapState) : ReadsOnly k k :=
  ⟨rfl, [], by simp, by simp⟩

/-- Reading after reading reads only. -/
theorem readsOnly_trans {k1 k2 k3 : MapState} (h12 : ReadsOnly k1 k2) (h23 : ReadsOnly k2 k3) :
    ReadsOnly k1 k3 := by
  obtain ⟨hm1, cs1, hc1, hr1⟩ := h12
  obtain ⟨hm2, cs2, hc2, hr2⟩ := h23
  refine ⟨hm2.trans hm1, cs1 ++ cs2, ?_, ?_⟩
  · rw [hc2, hc1, List.append_assoc]
  · intro c hc
    rcases List.mem_append.mp hc with h | h
    · exact hr1 c h
    · exact hr2 c h

/-- One reading call reads only. -/
theorem readsOnly_issue (k : MapState) (c : MapCall) (hc : isRead c = true) :
    ReadsOnly k (issue k c) := by
  refine ⟨?_, [c], rfl, ?_⟩
  · cases c <;> simp [isRead] at hc <;> rfl
  · intro d hd
    rw [List.mem_singleton] at hd
    rw [hd]; exact hc

/-- The walk with the map as state issues the actions of `scanClass` on the
current map and reads only. -/
theorem scanClassW_spec (alive : Nat → Bool) (act : Nat → Action) (i : Int) :
    ∀ (fuel : Nat) (k : MapState) (key : Nat),
      (scanClassW alive act i fuel k key).1 = scanClass k.map alive act i fuel key ∧
      ReadsOnly k (scanClassW alive act i fuel k key).2 := by
  intro fuel
  induction fuel with
  | zero => intro k key; exact ⟨rfl, readsOnly_refl k⟩
  | succ fuel ih =>
    intro k key
    have h1 : ReadsOnly k (issue k (MapCall.get_next_key key)) := readsOnly_issue _ _ rfl
    rw [scanClassW, scanClass]
    simp only [get_next_key_call, lookup_elem_call]
    cases hn : bpf_map_get_next_key k.map key with
    | none => exact ⟨rfl, h1⟩
    | some nk =>
      have h2 : ReadsOnly (issue k (MapCall.get_next_key key))
          (issue (issue k (MapCall.get_next_key key)) (MapCall.lookup_elem nk)) :=
        readsOnly_issue _ _ rfl
      have h12 := readsOnly_trans h1 h2
      have hrec := ih (issue (issue k (MapCall.get_next_key key)) (MapCall.lookup_elem nk)) nk
      have hmap : (issue (issue k (MapCall.get_next_key key)) (MapCall.lookup_elem nk)).map
          = k.map := h12.1
      have hmap1 : (issue k (MapCall.get_next_key key)).map = k.map := h1.1
      simp only [hmap1]
      refine ⟨?_, readsOnly_trans h12 hrec.2⟩
      rw [hrec.1, hmap]

/-- The class loop with the map as state issues the actions of the class loop
on the current map and reads only. -/
theorem forClassesW_spec (alive : Nat → Bool) (act : Nat → Action) :
    ∀ (l : List Int) (k : MapState),
      (forClassesW alive act l k).1
        = l.flatMap (fun i => scanClass k.map alive act i (k.map.length + 1) 0) ∧
      ReadsOnly k (forClassesW alive act l k).2 := by
  intro l
  induction l with
  | nil => intro k; exact ⟨rfl, readsOnly_refl k⟩
  | cons i rest ih =>
    intro k
    have hs := scanClassW_spec alive act i (k.map.length + 1) k 0
    have hr := ih (scanClassW alive act i (k.map.length + 1) k 0).2
    rw [forClassesW]
    simp only [List.flatMap_cons]
    refine ⟨?_, readsOnly_trans hs.2 hr.2⟩
    rw [hs.1, hr.1, hs.2.1]

/-- The pipeline with the map as state computes `evaluate` on the current map
and reads only. -/
theorem evaluateW_spec (alive : Nat → Bool) (current_time : Nat) (task : task_info)
    (indicator : Bool) (k : MapState) :
    (evaluateW alive current_time task indicator k).1
      = evaluate k.map alive current_time task indicator ∧
    ReadsOnly k (evaluateW alive current_time task indicator k).2 := by
  unfold evaluateW evaluate
  simp only []
  split_ifs
  · have h := forClassesW_spec alive (fun p => Action.throttle p 5)
      (classesFrom (toInt32 ((task.priority_class + 1) % 2 ^ 64))) k
    refine ⟨?_, h.2⟩
    simp only [h.1, throttleLower, forClasses]
  · exact ⟨rfl, readsOnly_refl k⟩
  · exact ⟨rfl, readsOnly_refl k⟩
  · exact ⟨rfl, readsOnly_refl k⟩
  · exact ⟨rfl, readsOnly_refl k⟩

/-- The end of an iteration with the map as state computes `finishIteration`
on the current map and reads only. -/
theorem finishIterationW_spec (alive : Nat → Bool) (time : Nat → Nat) (st : State)
    (next_key : Nat) (indicator : Bool) (acts : List Action) (k : MapState) :
    (finishIterationW alive st next_key indicator acts k).st
      = finishIteration { reg := k.map, alive := alive, time := time } st next_key indicator acts ∧
    ReadsOnly k (finishIterationW alive st next_key indicator acts k).kernel := by
  unfold finishIterationW finishIteration
  split_ifs with hi
  · have h := forClassesW_spec alive Action.resume (classesFrom 1) k
    refine ⟨?_, h.2⟩
    simp only [h.1, resumeAll, forClasses, hi, if_true]
  · refine ⟨?_, readsOnly_refl k⟩
    simp [hi]

/-- One step with the map as state computes `step` on the current map and
reads only. -/
theorem worldStep_spec (alive : Nat → Bool) (time : Nat → Nat) (w : World) :
    (worldStep alive time w).st = step { reg := w.kernel.map, alive := alive, time := time } w.st ∧
    ReadsOnly w.kernel (worldStep alive time w).kernel := by
  unfold worldStep step
  by_cases hopen : w.st.map_open = true
  · simp only [hopen, if_true, get_next_key_call, lookup_elem_call]
    have h1 : ReadsOnly w.kernel (issue w.kernel (MapCall.get_next_key w.st.key)) :=
      readsOnly_issue _ _ rfl
    cases hn : bpf_map_get_next_key w.kernel.map w.st.key with
    | none => exact ⟨rfl, h1⟩
    | some nk =>
      have h2 : ReadsOnly (issue w.kernel (MapCall.get_next_key w.st.key))
          (issue (issue w.kernel (MapCall.get_next_key w.st.key)) (MapCall.lookup_elem nk)) :=
        readsOnly_issue _ _ rfl
      have h12 := readsOnly_trans h1 h2
      have hmap1 : (issue w.kernel (MapCall.get_next_key w.st.key)).map = w.kernel.map := h1.1
      simp only [hmap1]
      cases hl : bpf_map_lookup_elem w.kernel.map nk with
      | none =>
        have hf := finishIterationW_spec alive time w.st nk w.st.indicator []
          (issue (issue w.kernel (MapCall.get_next_key w.st.key)) (MapCall.lookup_elem nk))
        rw [h12.1] at hf
        exact ⟨hf.1, readsOnly_trans h12 hf.2⟩
      | some task =>
        simp only []
        split_ifs with hal
        · exact ⟨rfl, h12⟩
        · have he := evaluateW_spec alive w.st.current_time task w.st.indicator
            (issue (issue w.kernel (MapCall.get_next_key w.st.key)) (MapCall.lookup_elem nk))
          rw [h12.1] at he
          have hf := finishIterationW_spec alive time w.st nk
            (evaluateW alive w.st.current_time task w.st.indicator
              (issue (issue w.kernel (MapCall.get_next_key w.st.key))
                (MapCall.lookup_elem nk))).1.1
            (evaluateW alive w.st.current_time task w.st.indicator
              (issue (issue w.kernel (MapCall.get_next_key w.st.key))
                (MapCall.lookup_elem nk))).1.2
            (evaluateW alive w.st.current_time task w.st.indicator
              (issue (issue w.kernel (MapCall.get_next_key w.st.key))
                (MapCall.lookup_elem nk))).2
          refine ⟨?_, readsOnly_trans (readsOnly_trans h12 he.2) hf.2⟩
          rw [hf.1, (readsOnly_trans h12 he.2).1, he.1]
  · simp only [hopen]
    exact ⟨rfl, readsOnly_refl _⟩

/-- Every world of the run holds the state of `run`, and its map state arose
from the initial one through reading calls only. -/
theorem worldRun_spec (env : Env) (n : Nat) :
    (worldRun env n).st = run env n ∧
    ReadsOnly { map := env.reg, calls := [] } (worldRun env n).kernel := by
  induction n with
  | zero => exact ⟨rfl, readsOnly_refl _⟩
  | succ n ih =>
    have h := worldStep_spec env.alive env.time (worldRun env n)
    rw [worldRun, run]
    refine ⟨?_, readsOnly_trans ih.2 h.2⟩
    rw [h.1, ih.2.1, ih.1]

/-- The calls of the first two steps on the map holding C alone: the pass
reads the record, walks the map once per class for the resume, and finds the end
of the map. -/
theorem worldRun_calls_single :
    (worldRun singleEnv 2).kernel.calls =
      [MapCall.get_next_key 0, MapCall.lookup_elem 1,
       MapCall.get_next_key 0, MapCall.lookup_elem 1, MapCall.get_next_key 1,
       MapCall.get_next_key 0, MapCall.lookup_elem 1, MapCall.get_next_key 1,
       MapCall.get_next_key 0, MapCall.lookup_elem 1, MapCall.get_next_key 1,
       MapCall.get_next_key 0, MapCall.lookup_elem 1, MapCall.get_next_key 1,
       MapCall.get_next_key 0, MapCall.lookup_elem 1, MapCall.get_next_key 1,
       MapCall.get_next_key 1] := by
  decide

/-! ## The claims -/

/-- Claim C2, the code at a failing input.  The map holds B before the live
latency-sensitive record A, which is overtime in the first cycle; the first
two iterations of that cycle nevertheless resume both tasks (after B, before A
is evaluated): the resume is issued inside the pass, not after it. -/
theorem C2_resume_issued_before_overtime_record :
    (2, recA) ∈ lateOvertimeEnv.reg ∧ lateOvertimeEnv.alive recA.pid = true ∧
    recA.time_sensitive = true ∧
    recA.max_latency < latencyOf (timeNs (lateOvertimeEnv.time 0)) recA.start_time ∧
    (run lateOvertimeEnv 2).cycle = 0 ∧
    (run lateOvertimeEnv 2).trace =
      [(0, Action.resume 100), (0, Action.resume 101), (0, Action.sleep 5),
       (0, Action.throttle 101 5), (0, Action.setpriority 100 (-20)), (0, Action.sleep 5)] := by
  decide

/-- Claim C3, the code at a failing input.  With the live overtime record A
alone in the map, the pass never leaves it: after any number `n + 1` of
iterations the cursor is still `0`, the first cycle is still running, and
`setpriority(100, -20)` has been issued `n + 1` times. -/
theorem C3_overtime_record_reevaluated_forever (n : Nat) :
    (run overtimeEnv (n + 1)).key = 0 ∧ (run overtimeEnv (n + 1)).cycle = 0 ∧
    (run overtimeEnv (n + 1)).trace =
      repeated [(0, Action.setpriority 100 (-20)), (0, Action.sleep 5)] (n + 1) := by
  rw [overtime_run]
  exact ⟨rfl, rfl, rfl⟩

/-- Claim C4, the code at a failing input.  The map holds B, the dead record C
and the live overtime record A.  After the iteration for B the run never
changes state again: the cursor stays on the key of B, so the dead record is
probed for ever and the record A behind it is never evaluated. -/
theorem C4_pass_stuck_on_dead_record (n : Nat) :
    run deadMiddleEnv (n + 1) =
      { key := 1, indicator := false, current_time := 1700000000000000000, map_open := true,
        cycle := 0,
        trace := [(0, Action.resume 100), (0, Action.resume 101), (0, Action.sleep 5)] } := by
  induction n with
  | zero => decide
  | succ n ih =>
    rw [run, ih]
    decide

/-- Claim C5 as stated fails.  The record has `0.75 * max_latency <= latency
<= max_latency` in exact arithmetic, and the pipeline issues the halfway call
`setpriority(7, 0)` instead of the approaching call: the deadline is rounded up
when it is converted to `double`. -/
theorem C5_counterexample_rounded_threshold :
    roundedUpTask.time_sensitive = true ∧
    3 * roundedUpTask.max_latency
      ≤ 4 * latencyOf 1700000000000000000 roundedUpTask.start_time ∧
    latencyOf 1700000000000000000 roundedUpTask.start_time ≤ roundedUpTask.max_latency ∧
    evaluate [] (fun _ => true) 1700000000000000000 roundedUpTask false
      = (false, [Action.setpriority 7 0]) := by
  decide

/-- Claim C5, amended.  For a latency-sensitive record with
`3 * max_latency < 2 ^ 53`, where the threshold is computed exactly, and
`0.75 * max_latency <= latency <= max_latency`, the pipeline issues exactly the
call `setpriority(pid, -10)`, no other action, and leaves the indicator as it
was. -/
theorem C5_approaching_tier_only (reg : Registry) (alive : Nat → Bool) (current_time : Nat)
    (task : task_info) (indicator : Bool)
    (hsens : task.time_sensitive = true)
    (hexact : 3 * task.max_latency < 2 ^ 53)
    (hlow : 3 * task.max_latency ≤ 4 * latencyOf current_time task.start_time)
    (hhigh : latencyOf current_time task.start_time ≤ task.max_latency) :
    evaluate reg alive current_time task indicator
      = (indicator, [Action.setpriority task.pid (-10)]) := by
  have hover : ¬ task.max_latency < latencyOf current_time task.start_time := by omega
  have happ := approaching_exact (latencyOf current_time task.start_time) task.max_latency
    hexact (by omega)
  simp [evaluate, hsens, hover, happ, hlow]

/-- Claim C5, amended, at a record at 90% of a deadline of one second. -/
theorem C5_witness_ninety_percent :
    evaluate lateOvertimeEnv.reg (fun _ => true) 1700000000000000000 recNinety false
      = (false, [Action.setpriority recNinety.pid (-10)]) :=
  C5_approaching_tier_only lateOvertimeEnv.reg (fun _ => true) 1700000000000000000 recNinety
    false (by decide) (by decide) (by decide) (by decide)

/-- Claim C6 as stated fails.  The record has `0.5 * max_latency <= latency <
0.75 * max_latency` in exact arithmetic, and the pipeline issues the
approaching call `setpriority(7, -10)` instead of the halfway call: the
deadline is rounded down when it is converted to `double`. -/
theorem C6_counterexample_rounded_threshold :
    roundedDownTask.time_sensitive = true ∧
    roundedDownTask.max_latency
      ≤ 2 * latencyOf 1700000000000000000 roundedDownTask.start_time ∧
    4 * latencyOf 1700000000000000000 roundedDownTask.start_time
      < 3 * roundedDownTask.max_latency ∧
    evaluate [] (fun _ => true) 1700000000000000000 roundedDownTask false
      = (false, [Action.setpriority 7 (-10)]) := by
  decide

/-- Claim C6, amended.  For a latency-sensitive record with
`3 * max_latency < 2 ^ 53`, where the thresholds are computed exactly, and
`0.5 * max_latency <= latency < 0.75 * max_latency`, the pipeline issues exactly
the call `setpriority(pid, 0)`, no throttle, and leaves the indicator as it
was. -/
theorem C6_halfway_tier_only (reg : Registry) (alive : Nat → Bool) (current_time : Nat)
    (task : task_info) (indicator : Bool)
    (hsens : task.time_sensitive = true)
    (hexact : 3 * task.max_latency < 2 ^ 53)
    (hlow : task.max_latency ≤ 2 * latencyOf current_time task.start_time)
    (hhigh : 4 * latencyOf current_time task.start_time < 3 * task.max_latency) :
    evaluate reg alive current_time task indicator
      = (indicator, [Action.setpriority task.pid 0]) := by
  have hover : ¬ task.max_latency < latencyOf current_time task.start_time := by omega
  have hnot : ¬ 3 * task.max_latency ≤ 4 * latencyOf current_time task.start_time := by omega
  have happ := approaching_exact (latencyOf current_time task.start_time) task.max_latency
    hexact (by omega)
  have hhalf := halfway_exact (latencyOf current_time task.start_time) task.max_latency
    (by omega) (by omega)
  simp [evaluate, hsens, hover, happ, hhalf, hlow, hnot]

/-- Claim C6, amended, at scenario record C of the specification: 600 ms of a
deadline of one second, with other records in the map. -/
theorem C6_witness_scenario_C :
    evaluate deadMiddleEnv.reg (fun _ => true) 1700000000000000000 recC false
      = (false, [Action.setpriority recC.pid 0]) :=
  C6_halfway_tier_only deadMiddleEnv.reg (fun _ => true) 1700000000000000000 recC false
    (by decide) (by decide) (by decide) (by decide)

/-- Claim C7.  For a record that is not latency-sensitive the pipeline issues
no action at all (no `setpriority`, no pause, no throttle) and leaves the
indicator as it was, whatever the current time, the start time and the
deadline. -/
theorem C7_not_latency_sensitive_no_action (reg : Registry) (alive : Nat → Bool)
    (current_time : Nat) (task : task_info) (indicator : Bool)
    (hsens : task.time_sensitive = false) :
    evaluate reg alive current_time task indicator = (indicator, []) := by
  simp [evaluate, hsens]

/-- Claim C7 at record B, whose latency is far above its deadline of zero. -/
theorem C7_witness_record_B :
    recB.max_latency < latencyOf 1700000000000000000 recB.start_time ∧
    evaluate lateOvertimeEnv.reg (fun _ => true) 1700000000000000000 recB false = (false, []) :=
  ⟨by decide,
    C7_not_latency_sensitive_no_action lateOvertimeEnv.reg (fun _ => true) 1700000000000000000
      recB false (by decide)⟩

/-- Claim C8, the code at a failing input.  The map holds the dead record C
before the live record B of class 2, and no live latency-sensitive record is
overtime.  The run never leaves its initial state: the first cycle never ends
and B is never resumed. -/
theorem C8_no_resume_behind_dead_record (n : Nat) :
    (∀ e ∈ deadFirstEnv.reg, ¬ (deadFirstEnv.alive e.2.pid = true ∧ e.2.time_sensitive = true ∧
      e.2.max_latency < latencyOf (timeNs (deadFirstEnv.time 0)) e.2.start_time)) ∧
    (2, recB) ∈ deadFirstEnv.reg ∧ deadFirstEnv.alive recB.pid = true ∧
    run deadFirstEnv n = init deadFirstEnv ∧ (run deadFirstEnv n).trace = [] := by
  refine ⟨by decide, by decide, by decide, ?_⟩
  induction n with
  | zero => exact ⟨rfl, rfl⟩
  | succ n ih =>
    rw [run, ih.1]
    decide

/-- Claim C9, the code at a failing input.  With the live record C alone in
the map, the first cycle evaluates it and closes the map; in every later cycle
the map is closed and the cursor still holds the last key, so after `n + 2`
steps the run has gone through `n + 1` cycles and the trace holds nothing but
the actions of the first cycle and one `close` per cycle. -/
theorem C9_later_cycles_evaluate_nothing (n : Nat) :
    run singleEnv (n + 2) =
      { key := 1, indicator := false, current_time := timeNs (scenarioTime (n + 1)),
        map_open := false, cycle := n + 1,
        trace := [(0, Action.setpriority 102 0), (0, Action.resume 102), (0, Action.sleep 5)]
          ++ closes 0 (n + 1) } := by
  induction n with
  | zero => decide
  | succ n ih =>
    rw [run, ih]
    simp [step, closes, singleEnv]

/-- Claim C10, the code at failing inputs.  On the empty map `n` steps run
through `n` cycles whose trace holds one `close` each and no sleep; on a map of
two live records the first cycle holds two sleeps, one per record. -/
theorem C10_sleep_is_per_record_not_per_cycle (n : Nat) :
    run emptyEnv n =
      { key := 0, indicator := false, current_time := timeNs (scenarioTime n),
        map_open := decide (n = 0), cycle := n, trace := closes 0 n } ∧
    (run pairEnv 3).cycle = 1 ∧
    (run pairEnv 3).trace =
      [(0, Action.resume 101), (0, Action.resume 102), (0, Action.sleep 5),
       (0, Action.setpriority 102 0), (0, Action.resume 101), (0, Action.resume 102),
       (0, Action.sleep 5), (0, Action.close)] := by
  refine ⟨?_, by decide, by decide⟩
  induction n with
  | zero => decide
  | succ n ih =>
    rw [run, ih]
    simp [step, closes, emptyEnv, bpf_map_get_next_key, keyAfter]

/-! ## The behaviour claims -/

/-- Claim C11 as stated fails.  The record has `latency < 0.5 * max_latency` in
exact arithmetic, and the pipeline issues the halfway call `setpriority(8, 0)`:
the deadline is rounded down when it is converted to `double`. -/
theorem C11_counterexample_rounded_deadline :
    belowHalfTask.time_sensitive = true ∧
    2 * latencyOf 1700000000000000000 belowHalfTask.start_time < belowHalfTask.max_latency ∧
    evaluate [] (fun _ => true) 1700000000000000000 belowHalfTask false
      = (false, [Action.setpriority 8 0]) := by
  decide

/-- Claim C11, amended.  For a latency-sensitive record with
`max_latency < 2 ^ 53`, which is converted to `double` exactly, and
`latency < 0.5 * max_latency`, the pipeline issues no action (no `setpriority`,
no throttle, no pause) and leaves the indicator as it was. -/
theorem C11_below_half_no_action (reg : Registry) (alive : Nat → Bool) (current_time : Nat)
    (task : task_info) (indicator : Bool)
    (hsens : task.time_sensitive = true)
    (hexact : task.max_latency < 2 ^ 53)
    (hlow : 2 * latencyOf current_time task.start_time < task.max_latency) :
    evaluate reg alive current_time task indicator = (indicator, []) := by
  have hover : ¬ task.max_latency < latencyOf current_time task.start_time := by omega
  have hM : roundNearestEven task.max_latency = task.max_latency :=
    roundNearestEven_small _ hexact
  have hL : roundNearestEven (latencyOf current_time task.start_time)
      = latencyOf current_time task.start_time := roundNearestEven_small _ (by omega)
  have h3 := roundNearestEven_lower (3 * task.max_latency) (by omega)
  have happ : approaching (latencyOf current_time task.start_time) task.max_latency = false := by
    simp only [approaching, u64_to_double, hM, hL, decide_eq_false_iff_not, not_le]
    by_cases hs : 3 * task.max_latency < 2 ^ 53
    · rw [roundNearestEven_small _ hs]; omega
    · omega
  have hhalf : halfway (latencyOf current_time task.start_time) task.max_latency = false := by
    simp only [halfway, u64_to_double, hM, hL, decide_eq_false_iff_not, not_le]
    omega
  simp [evaluate, hsens, hover, happ, hhalf]

/-- Claim C11, amended, at a record at 20% of a deadline of one second. -/
theorem C11_witness_twenty_percent :
    evaluate pairEnv.reg (fun _ => true) 1700000000000000000 recFifth false = (false, []) :=
  C11_below_half_no_action pairEnv.reg (fun _ => true) 1700000000000000000 recFifth false
    (by decide) (by decide) (by decide)

/-- Claim C12.  In every environment and after any number of steps, no action
of the trace is a pause, no system call behind the trace is
`kill(pid, SIGSTOP)`, and the system call behind every throttle of the trace is
a `nanosleep` of 5 seconds, which names no task: no signal and no priority
change. -/
theorem C12_no_pause_and_throttle_is_delay (env : Env) (n : Nat) :
    ∀ e ∈ (run env n).trace,
      (∀ p, e.2 ≠ Action.pause p) ∧
      (∀ p, syscallOf e.2 ≠ Syscall.kill p Signal.SIGSTOP) ∧
      (∀ p s, e.2 = Action.throttle p s → syscallOf e.2 = Syscall.nanosleep 5) := by
  intro e he
  have hi := run_issuable env n e he
  refine ⟨?_, ?_, ?_⟩
  · intro q hq
    rw [hq] at hi
    rcases hi with ⟨p, hp⟩ | ⟨p, v, hp⟩ | ⟨p, hp⟩ | hp | hp <;> cases hp
  · intro q hq
    rcases hi with ⟨p, hp⟩ | ⟨p, v, hp⟩ | ⟨p, hp⟩ | hp | hp <;>
      (rw [hp] at hq; cases hq)
  · intro q s hq
    rw [hq] at hi ⊢
    rcases hi with ⟨p, hp⟩ | ⟨p, v, hp⟩ | ⟨p, hp⟩ | hp | hp
    · cases hp; rfl
    · cases hp
    · cases hp
    · cases hp
    · cases hp

/-- Claim C12 at the throttle of B in the scenario of the specification. -/
theorem C12_witness_throttle_in_trace :
    (∀ p, Action.throttle 101 5 ≠ Action.pause p) ∧
    (∀ p, syscallOf (Action.throttle 101 5) ≠ Syscall.kill p Signal.SIGSTOP) ∧
    (∀ p s, Action.throttle 101 5 = Action.throttle p s →
      syscallOf (Action.throttle 101 5) = Syscall.nanosleep 5) :=
  C12_no_pause_and_throttle_is_delay lateOvertimeEnv 2 (0, Action.throttle 101 5) (by decide)

/-- Claim C13.  When `bpf_obj_get` returns a negative value the process has
exited with code 1 and an empty trace, at every observation point: no record
was read and no action was issued.  When it returns a non-negative value the
process is still running at every observation point. -/
theorem C13_open_failure_exits_before_any_action (env : Env) (map_fd : Int) (n : Nat) :
    (map_fd < 0 → check_and_prioritize_tasks env map_fd n = Outcome.exited 1 []) ∧
    (0 ≤ map_fd → check_and_prioritize_tasks env map_fd n = Outcome.running (run env n)) := by
  constructor
  · intro h; simp [check_and_prioritize_tasks, h]
  · intro h; simp [check_and_prioritize_tasks, not_lt.mpr h]

/-- Claim C13 at the return values `-1` and `3` of `bpf_obj_get`. -/
theorem C13_witness_failed_and_successful_open :
    check_and_prioritize_tasks lateOvertimeEnv (-1) 2 = Outcome.exited 1 [] ∧
    check_and_prioritize_tasks lateOvertimeEnv 3 2 = Outcome.running (run lateOvertimeEnv 2) :=
  ⟨(C13_open_failure_exits_before_any_action lateOvertimeEnv (-1) 2).1 (by decide),
   (C13_open_failure_exits_before_any_action lateOvertimeEnv 3 2).2 (by decide)⟩

/-- Claim C14.  In every environment and after any number of steps of the
program run with the map as state, the program state is the one of `run`, no
call made on the map is `bpf_map_update_elem` or `bpf_map_delete_elem`, and the
map equals the initial map; in particular every entry whose task is dead is
still in it. -/
theorem C14_map_never_modified (env : Env) (n : Nat) :
    (worldRun env n).st = run env n ∧
    (∀ c ∈ (worldRun env n).kernel.calls,
      (∀ key value, c ≠ MapCall.update_elem key value) ∧ ∀ key, c ≠ MapCall.delete_elem key) ∧
    (worldRun env n).kernel.map = env.reg ∧
    ∀ e ∈ env.reg, env.alive e.2.pid = false → e ∈ (worldRun env n).kernel.map := by
  obtain ⟨hst, hmap, cs, hcs, hread⟩ := worldRun_spec env n
  refine ⟨hst, ?_, hmap, ?_⟩
  · intro c hc
    rw [hcs] at hc
    have hr : isRead c = true := hread c (by simpa using hc)
    constructor
    · intro key value h
      rw [h] at hr
      cases hr
    · intro key h
      rw [h] at hr
      cases hr
  · intro e he _
    rw [hmap]; exact he

/-- Claim C15.  For a latency-sensitive record whose start time is greater than
the current time (both unsigned 64-bit values), the computed latency is
`2 ^ 64 - (start_time - current_time)`, and whenever that value exceeds
`max_latency` the pipeline escalates: it sets the indicator, throttles the lower
classes and issues `setpriority(pid, -20)`. -/
theorem C15_latency_wraps_and_escalates (reg : Registry) (alive : Nat → Bool)
    (current_time : Nat) (task : task_info) (indicator : Bool)
    (hnow : current_time < 2 ^ 64) (hstart : task.start_time < 2 ^ 64)
    (hfuture : current_time < task.start_time)
    (hsens : task.time_sensitive = true) :
    latencyOf current_time task.start_time = 2 ^ 64 - (task.start_time - current_time) ∧
    (task.max_latency < 2 ^ 64 - (task.start_time - current_time) →
      evaluate reg alive current_time task indicator
        = (true, throttleLower reg alive task.priority_class
            ++ [Action.setpriority task.pid (-20)])) := by
  have hlat : latencyOf current_time task.start_time
      = 2 ^ 64 - (task.start_time - current_time) := by
    unfold latencyOf
    rw [Nat.mod_eq_of_lt hnow, Nat.mod_eq_of_lt hstart]
    have : current_time + 2 ^ 64 - task.start_time < 2 ^ 64 := by omega
    rw [Nat.mod_eq_of_lt this]
    omega
  refine ⟨hlat, ?_⟩
  intro hover
  rw [← hlat] at hover
  simp [evaluate, hsens, hover]

/-- Claim C15 at a record that starts one second after the current time, with
a deadline of one hour: B is throttled and the priority is set to -20. -/
theorem C15_witness_future_start :
    latencyOf 1700000000000000000 recFuture.start_time
      = 2 ^ 64 - (recFuture.start_time - 1700000000000000000) ∧
    evaluate futureEnv.reg futureEnv.alive 1700000000000000000 recFuture false
      = (true, [Action.throttle 101 5, Action.setpriority 103 (-20)]) :=
  have h := C15_latency_wraps_and_escalates futureEnv.reg futureEnv.alive 1700000000000000000
    recFuture false (by decide) (by decide) (by decide) (by decide)
  ⟨h.1, (h.2 (by decide)).trans (by decide)⟩

/-- Claim C16.  Let the iteration at the state `st` escalate for the live
latency-sensitive overtime record `r`.  Then after every number `n + 1` of
iterations the indicator is set, the cursor `key`, the cycle and the captured
current time are those of `st`, the map is open, the next test of line 69
returns the key of `r` again, and the trace has grown by `n + 1` copies of the
escalation block of `r`: the same record is evaluated again and again.  The
block holds no resume.  In every state, a step that clears a set indicator is
the head of the next cycle. -/
theorem C16_indicator_monotone_within_cycle (env : Env) (st : State) (k : Nat) (r : task_info)
    (hopen : st.map_open = true)
    (hnext : bpf_map_get_next_key env.reg st.key = some k)
    (hlook : bpf_map_lookup_elem env.reg k = some r)
    (halive : env.alive r.pid = true)
    (hsens : r.time_sensitive = true)
    (hover : r.max_latency < latencyOf st.current_time r.start_time) (n : Nat) :
    (runFrom env st (n + 1)).indicator = true ∧
    (runFrom env st (n + 1)).key = st.key ∧
    (runFrom env st (n + 1)).cycle = st.cycle ∧
    (runFrom env st (n + 1)).current_time = st.current_time ∧
    (runFrom env st (n + 1)).map_open = true ∧
    bpf_map_get_next_key env.reg (runFrom env st (n + 1)).key = some k ∧
    (runFrom env st (n + 1)).trace = st.trace
      ++ repeated ((escalationBlock env r).map (fun a => (st.cycle, a))) (n + 1) ∧
    (∀ a ∈ escalationBlock env r, ∀ p, a ≠ Action.resume p) ∧
    (∀ s : State, s.indicator = true → (step env s).indicator = false →
      (step env s).cycle = s.cycle + 1) := by
  rw [runFrom_escalation env st k r hopen hnext hlook halive hsens hover n]
  refine ⟨rfl, rfl, rfl, rfl, hopen, hnext, rfl, ?_,
    fun s h1 h2 => step_clears_indicator env s h1 h2⟩
  intro a ha p hp
  subst hp
  simp only [escalationBlock, List.mem_append, List.mem_cons, List.mem_singleton,
    List.not_mem_nil, or_false] at ha
  rcases ha with ha | ha | ha
  · obtain ⟨_, _, _, e, _, _, _, he⟩ := forClasses_mem _ _ _ _ _ ha
    cases he
  · cases ha
  · cases ha

/-- Claim C16 at the scenario of the specification, from the state in which
the cursor reaches the overtime record A, over three iterations. -/
theorem C16_witness_scenario_A :
    (runFrom lateOvertimeEnv (run lateOvertimeEnv 1) (2 + 1)).indicator = true ∧
    (runFrom lateOvertimeEnv (run lateOvertimeEnv 1) (2 + 1)).key = (run lateOvertimeEnv 1).key ∧
    (runFrom lateOvertimeEnv (run lateOvertimeEnv 1) (2 + 1)).cycle
      = (run lateOvertimeEnv 1).cycle ∧
    (runFrom lateOvertimeEnv (run lateOvertimeEnv 1) (2 + 1)).current_time
      = (run lateOvertimeEnv 1).current_time ∧
    (runFrom lateOvertimeEnv (run lateOvertimeEnv 1) (2 + 1)).map_open = true ∧
    bpf_map_get_next_key lateOvertimeEnv.reg
      (runFrom lateOvertimeEnv (run lateOvertimeEnv 1) (2 + 1)).key = some 2 ∧
    (runFrom lateOvertimeEnv (run lateOvertimeEnv 1) (2 + 1)).trace
      = (run lateOvertimeEnv 1).trace
        ++ repeated ((escalationBlock lateOvertimeEnv recA).map
            (fun a => ((run lateOvertimeEnv 1).cycle, a))) (2 + 1) ∧
    (∀ a ∈ escalationBlock lateOvertimeEnv recA, ∀ p, a ≠ Action.resume p) ∧
    (∀ s : State, s.indicator = true → (step lateOvertimeEnv s).indicator = false →
      (step lateOvertimeEnv s).cycle = s.cycle + 1) :=
  C16_indicator_monotone_within_cycle lateOvertimeEnv (run lateOvertimeEnv 1) 2 recA
    (by decide) (by decide) (by decide) (by decide) (by decide) (by decide) 2

/-- Claim C17 as stated fails.  The offending record has the class
`2 ^ 32 - 2`, so the counter `int i = priority_class + 1` starts at `-1`, whose
unsigned value is `2 ^ 64 - 1`: the live record of that class, greater than 5
and than the class of the offending record, is throttled. -/
theorem C17_counterexample_wrapped_counter :
    (3, recHuge) ∈ wrapEnv.reg ∧ wrapEnv.alive recHuge.pid = true ∧
    5 < recHuge.priority_class ∧ recWrap.priority_class < recHuge.priority_class ∧
    evaluate wrapEnv.reg wrapEnv.alive 1700000000000000000 recWrap false
      = (true, [Action.throttle recHuge.pid 5, Action.throttle 102 5,
          Action.setpriority 104 (-20)]) := by
  decide

/-- Claim C17, amended.  Every resume of the global-resume step goes to a live
entry of a class in `1..5`.  When the class of the offending record, plus one,
converts to a non-negative `int`, that is `(pc + 1) mod 2 ^ 32 < 2 ^ 31`, every
throttle of the escalation goes to a live entry of a class at most 5. -/
theorem C17_out_of_range_classes_invisible (reg : Registry) (alive : Nat → Bool) (pc : Nat) :
    (∀ a ∈ resumeAll reg alive, ∃ e ∈ reg, a = Action.resume e.2.pid ∧ alive e.2.pid = true ∧
      1 ≤ e.2.priority_class ∧ e.2.priority_class ≤ 5) ∧
    ((pc + 1) % 2 ^ 32 < 2 ^ 31 →
      ∀ a ∈ throttleLower reg alive pc, ∃ e ∈ reg, a = Action.throttle e.2.pid 5 ∧
        alive e.2.pid = true ∧ e.2.priority_class ≤ 5) := by
  constructor
  · intro a ha
    obtain ⟨i, h1, h5, e, he, hc, hal, rfl⟩ := forClasses_mem reg alive Action.resume 1 a ha
    have := toU64_small i (by omega) h5
    exact ⟨e, he, rfl, hal, by omega, by omega⟩
  · intro hpc a ha
    obtain ⟨i, h1, h5, e, he, hc, hal, rfl⟩ :=
      forClasses_mem reg alive (fun p => Action.throttle p 5) _ a ha
    have h0 := toInt32_nonneg pc hpc
    have := toU64_small i (by omega) h5
    exact ⟨e, he, rfl, hal, by omega⟩

/-- Claim C17, amended, at a map with live records of the classes 0 and 6 and
the offending record A of class 1. -/
theorem C17_witness_mixed_classes :
    (∀ a ∈ resumeAll mixedEnv.reg mixedEnv.alive, ∃ e ∈ mixedEnv.reg,
      a = Action.resume e.2.pid ∧ mixedEnv.alive e.2.pid = true ∧
      1 ≤ e.2.priority_class ∧ e.2.priority_class ≤ 5) ∧
    (∀ a ∈ throttleLower mixedEnv.reg mixedEnv.alive recA.priority_class, ∃ e ∈ mixedEnv.reg,
      a = Action.throttle e.2.pid 5 ∧ mixedEnv.alive e.2.pid = true ∧
      e.2.priority_class ≤ 5) :=
  ⟨(C17_out_of_range_classes_invisible mixedEnv.reg mixedEnv.alive recA.priority_class).1,
   (C17_out_of_range_classes_invisible mixedEnv.reg mixedEnv.alive recA.priority_class).2
     (by decide)⟩

end AutoTaskScheduler
